import Mathlib

/-!
Shallow embedding of `src/extract-from-repos.py` (StreamArr repository).

The script aggregates catalog metadata from remote JSON endpoints, builds
M3U `#EXTINF` header lines, flattens catalog/stream structures into a list
of (header, url) pairs, deduplicates by url and writes the playlist file.

Network fetches are modelled as functions from request keys (page offsets,
item identifiers) to optional JSON-shaped records: `none` models a fetch
that failed (the source's `fetch_json` returns `None` on any error).
Python string builtins used by the source (`startswith`, `isdigit`,
`replace`, substring `in`, `' '.join`) are embedded as executable
functions over `List Char` / `String` below.
-/

/-- One playlist entry: the `#EXTINF` header string paired with a url. -/
abbrev Entry := String × String

/-- Embedding of checking that a character list starts with another list
(character-by-character equality, as Python `startswith` does). -/
def listStartsWith : List Char → List Char → Bool
  | _, [] => true
  | [], _ :: _ => false
  | a :: as, b :: bs => a == b && listStartsWith as bs

/-- Embedding of the Python substring test `needle in hay`. -/
def listContainsSub : List Char → List Char → Bool
  | [], needle => needle.isEmpty
  | hay@(_ :: rest), needle => listStartsWith hay needle || listContainsSub rest needle

/-- String-level wrapper for `listStartsWith`. -/
def startsWithStr (s p : String) : Bool :=
  listStartsWith s.data p.data

/-- String-level wrapper for `listContainsSub` (Python `p in s`). -/
def containsStr (s p : String) : Bool :=
  listContainsSub s.data p.data

/-- Embedding of Python `' '.join(parts)`. -/
def joinSpace : List String → String
  | [] => ""
  | [p] => p
  | p :: rest => p ++ " " ++ joinSpace rest

/-- Embedding of `s.startswith('tt')` (line 37 of the source). -/
def startsWithTT (s : String) : Bool :=
  match s.data with
  | 't' :: 't' :: _ => true
  | _ => false

/-- Embedding of `s.isdigit()`: non-empty and every character a digit. -/
def isDigits (s : String) : Bool :=
  !s.data.isEmpty && s.data.all Char.isDigit

/-- Embedding of Python `s.replace('tt', '')` on the character list:
removes every non-overlapping occurrence of `tt`, scanning left to right. -/
def replaceTTAux : List Char → List Char
  | [] => []
  | [c] => [c]
  | c1 :: c2 :: rest =>
    if c1 = 't' ∧ c2 = 't' then replaceTTAux rest
    else c1 :: replaceTTAux (c2 :: rest)

/-- Embedding of `item['id'].replace('tt', '')` (line 38 of the source). -/
def replaceTT (s : String) : String :=
  String.mk (replaceTTAux s.data)

/-- Splits off the maximal leading run of digit characters. -/
def takeDigits : List Char → List Char × List Char
  | [] => ([], [])
  | c :: rest =>
    if c.isDigit then
      let (ds, r) := takeDigits rest
      (c :: ds, r)
    else ([], c :: rest)

/-- Embedding of `re.search(r'/(\d+)\.jpg', poster_url)` (line 28): scans for
the leftmost position where a slash is followed by one or more digits and
then the four characters `.jpg`, returning the digit group. -/
def findJpgId : List Char → Option String
  | [] => none
  | '/' :: rest =>
    match takeDigits rest with
    | ([], _) => findJpgId rest
    | (ds, r) => if r.take 4 == ['.', 'j', 'p', 'g'] then some (String.mk ds) else findJpgId rest
  | _ :: rest => findJpgId rest

/-- Embedding of `extract_tmdb_from_poster` (source lines 24-29). -/
def extract_tmdb_from_poster (poster_url : String) : Option String :=
  if poster_url == "" || !containsStr poster_url "tmdb.org" then none
  else findJpgId poster_url.data

/-- Fields of a catalog item that `create_extinf` reads (`id`, `name`,
`poster`, `year`); `none` models an absent key, `some ""` a key present
with an empty value (Python distinguishes the two via `dict.get`). -/
structure Item where
  id : Option String
  name : Option String
  poster : Option String
  year : Option String
deriving DecidableEq

/-- Embedding of the `elif item.get('poster'): tmdb_id = extract_tmdb_from_poster(...)`
branch (source lines 39-40); a falsy (absent or empty) poster leaves the id `None`. -/
def posterFallback (item : Item) : Option String :=
  match item.poster with
  | some p => if p != "" then extract_tmdb_from_poster p else none
  | none => none

/-- Embedding of the `tmdb_id` computation in `create_extinf` (source lines
36-40): when the id is truthy and starts with `tt` or is all digits, the
id with every `tt` occurrence removed; otherwise the poster fallback. -/
def tmdbIdRaw (item : Item) : Option String :=
  match item.id with
  | some i =>
    if i != "" && (startsWithTT i || isDigits i) then some (replaceTT i)
    else posterFallback item
  | none => posterFallback item

/-- Embedding of the `if tmdb_id:` guard (source line 42): the `tvg-id`
field is appended only when `tmdb_id` is truthy, i.e. a non-empty string. -/
def tvgIdOpt (item : Item) : Option String :=
  match tmdbIdRaw item with
  | some s => if s != "" then some s else none
  | none => none

/-- Embedding of the `parts` list built by `create_extinf` (source lines
33-55): the fixed prefix, the optional `tvg-id` field, the always-present
`tvg-name` field, the optional `tvg-logo` field and the `group-title`. -/
def extinfParts (item : Item) (content_type : String) : List String :=
  ["#EXTINF:-1"]
  ++ (match tvgIdOpt item with
      | some t => ["tvg-id=\"" ++ t ++ "\""]
      | none => [])
  ++ ["tvg-name=\"" ++ item.name.getD "Unknown" ++ "\""]
  ++ (match item.poster with
      | some p => if p != "" then ["tvg-logo=\"" ++ p ++ "\""] else []
      | none => [])
  ++ ["group-title=\"" ++ (if content_type == "series" then "Series" else "Movies") ++ "\""]

/-- Embedding of the display title (source lines 58-60): the name, with
` (year)` appended when the year is truthy. -/
def extinfTitle (item : Item) : String :=
  let name := item.name.getD "Unknown"
  match item.year with
  | some y => if y != "" then name ++ " (" ++ y ++ ")" else name
  | none => name

/-- Embedding of `create_extinf` (source lines 31-62): the parts joined by
single spaces followed by `, ` and the display title. -/
def create_extinf (item : Item) (content_type : String) : String :=
  joinSpace (extinfParts item content_type) ++ ", " ++ extinfTitle item

/-- Stream record of the static catalog; `stream['url']` is accessed
directly (source line 101), so the field is mandatory. -/
structure BStream where
  url : String
deriving DecidableEq

/-- Catalog item of the static (Balkan-On-Demand) source: the
`create_extinf` fields plus the movie `category` and the `streams`
collection, both optional keys. -/
structure BItem extends Item where
  category : Option String
  streams : Option (List BStream)
deriving DecidableEq

/-- Top-level static catalog document; the source reads both collections
with `baubau_data.get('movies', [])` / `.get('series', [])`, which this
field models with an empty default. -/
structure BaubauData where
  movies : List BItem
  series : List BItem
deriving DecidableEq

/-- The fixed allow-list `domestic_categories` (source lines 77-89). -/
def domestic_categories : List String :=
  ["EX YU FILMOVI", "EX YU SERIJE", "EXYU SERIJE", "EXYU SERIJE KOJE SE EMITUJU",
   "KLIK PREMIJERA", "KLASICI", "FILMSKI KLASICI", "Bolji Zivot", "Bela Ladja",
   "Policajac Sa Petlovog Brda", "Slatke Muke"]

/-- Embedding of the per-movie body of the static adapter (source lines
93-102): skip when `movie.get('category')` is not in the allow-list; then,
when the `streams` collection is truthy, emit one entry per stream, the
header rebuilt by `create_extinf` on each iteration. -/
def movieEntries (m : BItem) : List Entry :=
  match m.category with
  | none => []
  | some c =>
    if domestic_categories.contains c then
      match m.streams with
      | some ss =>
        if ss.isEmpty then []
        else ss.map fun s => (create_extinf m.toItem "movie", s.url)
      | none => []
    else []

/-- Embedding of the per-series body of the static adapter (source lines
106-111): no category filter, one entry per stream of a truthy `streams`. -/
def seriesEntries (m : BItem) : List Entry :=
  match m.streams with
  | some ss =>
    if ss.isEmpty then []
    else ss.map fun s => (create_extinf m.toItem "series", s.url)
  | none => []

/-- Embedding of source adapter 1 (source lines 75-111): when the static
document was fetched, all movie entries followed by all series entries. -/
def adapter1 (d : Option BaubauData) : List Entry :=
  match d with
  | none => []
  | some data => data.movies.flatMap movieEntries ++ data.series.flatMap seriesEntries

/-- Item reference returned by a catalog page; `meta.get('id', '')`. -/
structure MetaRef where
  id : Option String
deriving DecidableEq

/-- Paginated catalog page; `page.get('metas')` is an optional key. -/
structure Page where
  metas : Option (List MetaRef)
deriving DecidableEq

/-- DomaciFlix stream record; the url is read with `stream.get('url')`
and so is optional. -/
structure DStream where
  url : Option String
deriving DecidableEq

/-- Stream endpoint response, `{streams: [...]}` with optional key. -/
structure StreamsResp where
  streams : Option (List DStream)
deriving DecidableEq

/-- Movie metadata endpoint response, `{meta: {...}}` with optional key. -/
structure MovieMetaResp where
  meta : Option Item
deriving DecidableEq

/-- Episode stub of a series item; `video.get('id', '')`. -/
structure VideoRef where
  id : Option String
deriving DecidableEq

/-- Series-level metadata item: the `create_extinf` fields plus the
optional `videos` collection of episode stubs. An element `none` of the
collection models a malformed stub whose field access raises at run time
(the dynamic failure the adapter's `try`/`except` exists to catch);
`some v` is a well-formed stub. -/
structure SeriesItem extends Item where
  videos : Option (List (Option VideoRef))
deriving DecidableEq

/-- Series metadata endpoint response. -/
structure SeriesMetaResp where
  meta : Option SeriesItem
deriving DecidableEq

/-- Embedding of the per-meta body of adapter 2 (source lines 133-154):
fetch the metadata record, fetch the stream list, and emit one entry per
stream with a truthy url, all guarded by truthiness checks mirroring the
source. Fetchers are passed as functions; `none` models a failed fetch. -/
def processMovieMeta (fetchMeta : String → Option MovieMetaResp)
    (fetchStreams : String → Option StreamsResp) (m : MetaRef) : List Entry :=
  let meta_id := m.id.getD ""
  if meta_id != "" then
    match fetchMeta meta_id with
    | some resp =>
      match resp.meta with
      | some item =>
        match fetchStreams meta_id with
        | some sd =>
          match sd.streams with
          | some ss =>
            if ss.isEmpty then []
            else ss.filterMap fun s =>
              match s.url with
              | some u => if u != "" then some (create_extinf item "movie", u) else none
              | none => none
          | none => []
        | none => []
      | none => []
    | none => []
  else []

/-- Embedding of the episode loop of adapter 3 (source lines 190-200),
which runs inside the per-series `try` block: a malformed stub (`none`)
raises, the exception is caught by the per-series handler, and the loop
stops — entries appended for earlier episodes are kept, later episodes
of the same series are not processed. -/
def processVideos (fetchStreams : String → Option StreamsResp) (item : SeriesItem) :
    List (Option VideoRef) → List Entry
  | [] => []
  | none :: _ => []
  | some v :: rest =>
    (let video_id := v.id.getD ""
     if video_id != "" then
       match fetchStreams video_id with
       | some sd =>
         match sd.streams with
         | some ss =>
           if ss.isEmpty then []
           else ss.filterMap fun s =>
             match s.url with
             | some u => if u != "" then some (create_extinf item.toItem "series", u) else none
             | none => none
         | none => []
       | none => []
     else []) ++ processVideos fetchStreams item rest

/-- Embedding of the per-meta body of adapter 3 (source lines 178-202):
fetch the series metadata and, when the `videos` collection is truthy,
run the episode loop. -/
def processSeriesMeta (fetchMeta : String → Option SeriesMetaResp)
    (fetchStreams : String → Option StreamsResp) (m : MetaRef) : List Entry :=
  let meta_id := m.id.getD ""
  if meta_id != "" then
    match fetchMeta meta_id with
    | some resp =>
      match resp.meta with
      | some item =>
        match item.videos with
        | some vids =>
          if vids.isEmpty then []
          else processVideos fetchStreams item vids
        | none => []
      | none => []
    | none => []
  else []

/-- Truthiness of the pagination stop test at a given offset (source
lines 123-128 and 168-173): the fetch failed, the `metas` key is absent,
or the returned collection is empty. -/
def pageEmptyAt (f : Nat → Option Page) (skip : Nat) : Bool :=
  match f skip with
  | none => true
  | some page =>
    match page.metas with
    | none => true
    | some metas => metas.isEmpty

/-- Item references of the page at a given offset (empty on a stopping page). -/
def pageMetas (f : Nat → Option Page) (skip : Nat) : List MetaRef :=
  match f skip with
  | some page =>
    match page.metas with
    | some metas => metas
    | none => []
  | none => []

/-- Embedding of the `while True` pagination loop shared by adapters 2 and
3 (source lines 118-156 and 163-204): fetch the page at the cursor, stop
when it is empty, otherwise process every item reference and advance the
cursor by 100. Returns (entries, number of items seen, number of catalog
requests issued). The `fuel` argument bounds the recursion; the source
loop has no cap, and the theorems below only use runs whose stopping page
lies within the fuel. -/
def paginate (f : Nat → Option Page) (g : MetaRef → List Entry) :
    Nat → Nat → List Entry × Nat × Nat
  | 0, _ => ([], 0, 0)
  | fuel + 1, skip =>
    if pageEmptyAt f skip then ([], 0, 1)
    else
      let metas := pageMetas f skip
      let r := paginate f g fuel (skip + 100)
      (metas.flatMap g ++ r.1, metas.length + r.2.1, 1 + r.2.2)

/-- The remote world the script talks to: one static document and, for
each paginated source, a catalog endpoint, a metadata endpoint and a
stream endpoint. `none` anywhere models a failed fetch. -/
structure Env where
  baubau : Option BaubauData
  movieCatalog : Nat → Option Page
  movieMeta : String → Option MovieMetaResp
  movieStreams : String → Option StreamsResp
  seriesCatalog : Nat → Option Page
  seriesMeta : String → Option SeriesMetaResp
  episodeStreams : String → Option StreamsResp

/-- Embedding of the full accumulation into `all_entries` (source lines
68-204): adapter 1, then the paginated movie adapter, then the paginated
series adapter, both paginated runs starting at offset 0. -/
def allEntries (env : Env) (fuel : Nat) : List Entry :=
  adapter1 env.baubau
  ++ (paginate env.movieCatalog (processMovieMeta env.movieMeta env.movieStreams) fuel 0).1
  ++ (paginate env.seriesCatalog (processSeriesMeta env.seriesMeta env.episodeStreams) fuel 0).1

/-- Embedding of the deduplication loop (source lines 211-216) with the
`seen_urls` set modelled as the list of urls added so far: an entry is
appended to the output exactly when its url has not been seen. -/
def dedupeLoop (seen : List String) : List Entry → List Entry
  | [] => []
  | p :: rest =>
    if p.2 ∈ seen then dedupeLoop seen rest
    else p :: dedupeLoop (p.2 :: seen) rest

/-- Deduplication of the accumulated entries, starting from an empty seen set. -/
def dedupe (l : List Entry) : List Entry :=
  dedupeLoop [] l

/-- The `unique_entries` list of the source (lines 211-216). -/
def uniqueEntries (env : Env) (fuel : Nat) : List Entry :=
  dedupe (allEntries env fuel)

/-- Embedding of the writer (source lines 225-229): each `f.write` emits
one newline-terminated line, so the file is the `#EXTM3U` marker line
followed by header line then url line for each entry in order. -/
def outputLines (entries : List Entry) : List String :=
  "#EXTM3U" :: entries.flatMap fun e => [e.1, e.2]

/-- Embedding of `with_tmdb` (source line 234): the number of retained
entries whose header contains the substring `tvg-id="`. -/
def withTmdbCount (u : List Entry) : Nat :=
  (u.filter fun e => containsStr e.1 "tvg-id=\"").length

/-- Embedding of the reported percentage (source line 243):
`with_tmdb * 100 // len(unique_entries) if unique_entries else 0`,
with Python floor division on naturals. -/
def reportPct (u : List Entry) : Nat :=
  if !u.isEmpty then withTmdbCount u * 100 / u.length else 0

/-- The dedup loop output is a sublist of its input, for any seen set. -/
lemma dedupeLoop_sublist (seen : List String) (l : List Entry) :
    (dedupeLoop seen l).Sublist l := by
  induction l generalizing seen with
  | nil => simp [dedupeLoop]
  | cons p rest ih =>
    simp only [dedupeLoop]
    split
    · exact (ih seen).cons p
    · exact (ih _).cons₂ p

/-- Urls of the dedup loop output are pairwise distinct and disjoint from
the seen set. -/
lemma dedupeLoop_urls (seen : List String) (l : List Entry) :
    ((dedupeLoop seen l).map Prod.snd).Nodup ∧
      ∀ u ∈ (dedupeLoop seen l).map Prod.snd, u ∉ seen := by
  induction l generalizing seen with
  | nil => simp [dedupeLoop]
  | cons p rest ih =>
    simp only [dedupeLoop]
    split
    · exact ih seen
    · rename_i hns
      obtain ⟨h1, h2⟩ := ih (p.2 :: seen)
      refine ⟨?_, ?_⟩
      · rw [List.map_cons, List.nodup_cons]
        exact ⟨fun hmem => (h2 _ hmem) (List.mem_cons_self _ _), h1⟩
      · intro u hu
        rw [List.map_cons, List.mem_cons] at hu
        rcases hu with rfl | hu
        · exact hns
        · exact fun hus => (h2 u hu) (List.mem_cons_of_mem _ hus)

/-- Every input entry whose url is not already seen has a representative
with the same url in the dedup loop output. -/
lemma dedupeLoop_complete (seen : List String) (l : List Entry) :
    ∀ p ∈ l, p.2 ∉ seen → ∃ q ∈ dedupeLoop seen l, q.2 = p.2 := by
  induction l generalizing seen with
  | nil => simp
  | cons a rest ih =>
    intro p hp hpseen
    simp only [dedupeLoop]
    rcases List.mem_cons.mp hp with rfl | hp
    · rw [if_neg hpseen]
      exact ⟨p, List.mem_cons_self _ _, rfl⟩
    · split
      · exact ih seen p hp hpseen
      · by_cases hpa : p.2 = a.2
        · exact ⟨a, List.mem_cons_self _ _, hpa.symm⟩
        · obtain ⟨q, hq, hqeq⟩ := ih (a.2 :: seen) p hp (by
            rw [List.mem_cons]
            rintro (h | h)
            · exact hpa h
            · exact hpseen h)
          exact ⟨q, List.mem_cons_of_mem _ hq, hqeq⟩

/-- Every entry retained by the dedup loop is the first entry of the input
carrying its url, and its url was not in the seen set. -/
lemma dedupeLoop_first (seen : List String) (l : List Entry) :
    ∀ q ∈ dedupeLoop seen l, q.2 ∉ seen ∧ l.find? (fun r => r.2 == q.2) = some q := by
  induction l generalizing seen with
  | nil => simp [dedupeLoop]
  | cons a rest ih =>
    intro q hq
    simp only [dedupeLoop] at hq
    split at hq
    · rename_i hseen
      obtain ⟨h1, h2⟩ := ih seen q hq
      refine ⟨h1, ?_⟩
      have hne : (a.2 == q.2) = false := by
        apply beq_false_of_ne
        intro h
        exact h1 (h ▸ hseen)
      rw [List.find?_cons_of_neg _ (by simp [hne]), h2]
    · rename_i hseen
      rcases List.mem_cons.mp hq with rfl | hq
      · exact ⟨hseen, List.find?_cons_of_pos _ (by simp)⟩
      · obtain ⟨h1, h2⟩ := ih (a.2 :: seen) q hq
        rw [List.mem_cons] at h1
        push_neg at h1
        refine ⟨h1.2, ?_⟩
        have hne : (a.2 == q.2) = false := by
          apply beq_false_of_ne
          intro h
          exact h1.1 h.symm
        rw [List.find?_cons_of_neg _ (by simp [hne]), h2]

/-- C1: the deduplicator returns exactly the ordered subsequence of its
input keeping only the first occurrence of each distinct url: the output
is a sublist of the input (order preserved), its urls are pairwise
distinct, every input url is represented, and every retained entry is the
first input entry carrying its url. -/
theorem c1_dedupe_first_occurrence :
    ∀ l : List Entry,
      (dedupe l).Sublist l ∧
      ((dedupe l).map Prod.snd).Nodup ∧
      (∀ p ∈ l, ∃ q ∈ dedupe l, q.2 = p.2) ∧
      (∀ q ∈ dedupe l, l.find? (fun r => r.2 == q.2) = some q) := by
  intro l
  refine ⟨dedupeLoop_sublist [] l, (dedupeLoop_urls [] l).1, ?_, ?_⟩
  · intro p hp
    exact dedupeLoop_complete [] l p hp (by simp)
  · intro q hq
    exact (dedupeLoop_first [] l q hq).2

/-- Concrete instance of C1: with two entries sharing one url, some entry
with that url is retained (and by the same theorem it is the first one). -/
theorem c1_dedupe_first_occurrence_witness :
    ∃ q ∈ dedupe [("h1", "u"), ("h2", "u")], q.2 = "u" :=
  (c1_dedupe_first_occurrence [("h1", "u"), ("h2", "u")]).2.2.1 ("h1", "u") (by simp)

/-- Removing `tt` occurrences from an all-digit character list changes nothing. -/
lemma replaceTTAux_digits (l : List Char) (h : ∀ c ∈ l, c.isDigit = true) :
    replaceTTAux l = l := by
  induction l with
  | nil => rfl
  | cons c rest ih =>
    cases rest with
    | nil => rfl
    | cons c2 rest2 =>
      simp only [replaceTTAux]
      rw [if_neg]
      · rw [ih fun x hx => h x (List.mem_cons_of_mem _ hx)]
      · rintro ⟨h1, h2⟩
        rw [h1] at h
        exact absurd (h 't' (List.mem_cons_self _ _)) (by decide)

/-- On an all-digit identifier, `replace('tt', '')` is the identity. -/
lemma replaceTT_digits (s : String) (h : isDigits s = true) : replaceTT s = s := by
  obtain ⟨d⟩ := s
  rw [replaceTT]
  rw [replaceTTAux_digits]
  intro c hc
  rw [isDigits] at h
  simp only [Bool.and_eq_true, List.all_eq_true] at h
  exact h.2 c hc

/-- An identifier starting with `tt` is non-empty in the boolean sense. -/
lemma bne_empty_of_startsWithTT (s : String) (h : startsWithTT s = true) :
    (s != "") = true := by
  rw [bne_iff_ne]
  intro he
  rw [he] at h
  exact absurd h (by decide)

/-- An all-digit identifier is non-empty in the boolean sense. -/
lemma bne_empty_of_isDigits (s : String) (h : isDigits s = true) :
    (s != "") = true := by
  rw [bne_iff_ne]
  intro he
  rw [he] at h
  exact absurd h (by decide)

/-- For an identifier starting with `tt`, the emitted `tvg-id` value is the
identifier with every `tt` occurrence removed, and the field is omitted
when that removal leaves the empty string. -/
lemma tvgIdOpt_of_tt (item : Item) (i : String) (hid : item.id = some i)
    (htt : startsWithTT i = true) :
    tvgIdOpt item = if replaceTT i = "" then none else some (replaceTT i) := by
  have hne := bne_empty_of_startsWithTT i htt
  simp only [tvgIdOpt, tmdbIdRaw, hid, hne, htt, Bool.true_or, Bool.true_and, if_true]
  by_cases hr : replaceTT i = ""
  · simp [hr]
  · simp [hr, bne_iff_ne]

/-- For an all-digit identifier, the emitted `tvg-id` value is the
identifier unchanged. -/
lemma tvgIdOpt_of_digits (item : Item) (i : String) (hid : item.id = some i)
    (hdig : isDigits i = true) : tvgIdOpt item = some i := by
  have hne := bne_empty_of_isDigits i hdig
  simp only [tvgIdOpt, tmdbIdRaw, hid, hne, hdig, Bool.or_true, Bool.true_and, if_true]
  rw [replaceTT_digits i hdig]
  simp [hne]

/-- The header never carries an empty `tvg-id` value: the truthiness guard
on `tmdb_id` filters out the empty string. -/
lemma tvgIdOpt_ne_empty (item : Item) : tvgIdOpt item ≠ some "" := by
  rw [tvgIdOpt]
  cases h : tmdbIdRaw item with
  | none => simp
  | some s =>
    by_cases hs : s = ""
    · simp [hs]
    · simp only [bne_iff_ne, ne_eq, hs, not_false_eq_true, if_true]
      intro hcon
      exact hs (Option.some.injEq _ _ ▸ hcon)

/-- C2 (amended): for an identifier beginning with `tt`, the `tvg-id`
value is the identifier with every occurrence of `tt` removed (not only
the leading prefix), and the field is present exactly when that removal
is non-empty; a purely numeric identifier is used unchanged. -/
theorem c2_tvg_id_from_identifier :
    (∀ (item : Item) (i : String), item.id = some i → startsWithTT i = true →
      tvgIdOpt item = if replaceTT i = "" then none else some (replaceTT i)) ∧
    (∀ (item : Item) (i : String), item.id = some i → isDigits i = true →
      tvgIdOpt item = some i) :=
  ⟨tvgIdOpt_of_tt, tvgIdOpt_of_digits⟩

/-- Counterexample to C2 as stated: identifier `tt0tt` begins with `tt`,
stripping the leading prefix would give `0tt`, but the code removes every
occurrence of `tt` and emits `0`. -/
theorem c2_tvg_id_counterexample :
    tvgIdOpt ⟨some "tt0tt", none, none, none⟩ = some "0" ∧ ("0" : String) ≠ "0tt" :=
  ⟨by decide, by decide⟩

/-- Concrete instances of C2: `tt123` yields `123`, `456` stays `456`. -/
theorem c2_tvg_id_from_identifier_witness :
    tvgIdOpt ⟨some "tt123", none, none, none⟩ = some "123" ∧
    tvgIdOpt ⟨some "456", none, none, none⟩ = some "456" := by
  constructor
  · have h := c2_tvg_id_from_identifier.1 ⟨some "tt123", none, none, none⟩ "tt123" rfl
      (by decide)
    rw [h]
    decide
  · exact c2_tvg_id_from_identifier.2 ⟨some "456", none, none, none⟩ "456" rfl (by decide)

/-- C10: when the identifier starts with `tt` but removing every `tt`
occurrence leaves the empty string, the `tvg-id` field is omitted entirely
(the poster fallback is not consulted: the conclusion holds for every
poster value), and no header ever carries an empty `tvg-id` value. -/
theorem c10_tt_only_identifier_omits_id :
    (∀ (item : Item) (i : String), item.id = some i → startsWithTT i = true →
      replaceTT i = "" → tvgIdOpt item = none) ∧
    (∀ item : Item, tvgIdOpt item ≠ some "") := by
  constructor
  · intro item i hid htt hrep
    rw [tvgIdOpt_of_tt item i hid htt, if_pos hrep]
  · exact tvgIdOpt_ne_empty

/-- Concrete instance of C10: identifier exactly `tt` with a poster that
the fallback would successfully parse still yields no `tvg-id` field. -/
theorem c10_tt_only_identifier_omits_id_witness :
    tvgIdOpt ⟨some "tt", none, some "https://image.tmdb.org/t/p/w500/123.jpg", none⟩ = none ∧
    extract_tmdb_from_poster "https://image.tmdb.org/t/p/w500/123.jpg" = some "123" :=
  ⟨c10_tt_only_identifier_omits_id.1
      ⟨some "tt", none, some "https://image.tmdb.org/t/p/w500/123.jpg", none⟩ "tt" rfl
      (by decide) (by decide),
    by decide⟩

/-- The `tvg-name` field built from an item is always among the header parts. -/
lemma name_part_mem (item : Item) (t : String) :
    ("tvg-name=\"" ++ item.name.getD "Unknown" ++ "\"") ∈ extinfParts item t := by
  simp [extinfParts]

/-- C4 (amended): the header always contains a `tvg-name` field whose
value is the item's name when the name key is present (even when its
value is the empty string), and the placeholder `Unknown` exactly when
the name key is absent. -/
theorem c4_tvg_name_field :
    ∀ (item : Item) (t : String),
      ("tvg-name=\"" ++ item.name.getD "Unknown" ++ "\"") ∈ extinfParts item t ∧
      (item.name = none → "tvg-name=\"Unknown\"" ∈ extinfParts item t) := by
  intro item t
  refine ⟨name_part_mem item t, fun h => ?_⟩
  have e : ("Unknown" : String) = item.name.getD "Unknown" := by rw [h]; rfl
  have e2 : "tvg-name=\"Unknown\"" = "tvg-name=\"" ++ item.name.getD "Unknown" ++ "\"" := by
    rw [← e]
    decide
  rw [e2]
  exact name_part_mem item t

/-- Counterexample to C4 as stated: an item whose name key is present with
the empty string yields `tvg-name=""`, not the `Unknown` placeholder. -/
theorem c4_tvg_name_counterexample :
    "tvg-name=\"\"" ∈ extinfParts ⟨none, some "", none, none⟩ "movie" ∧
    "tvg-name=\"Unknown\"" ∉ extinfParts ⟨none, some "", none, none⟩ "movie" :=
  ⟨by decide, by decide⟩

/-- Concrete instance of C4 (amended): an absent name yields the placeholder. -/
theorem c4_tvg_name_field_witness :
    "tvg-name=\"Unknown\"" ∈ extinfParts ⟨none, none, none, none⟩ "movie" :=
  (c4_tvg_name_field ⟨none, none, none, none⟩ "movie").2 rfl

/-- C7: a static-catalog movie item contributes entries exactly when its
category is present and matches the allow-list by exact string equality
and its streams collection is present and non-empty; otherwise it
contributes zero entries, including all of its streams. -/
theorem c7_movie_category_filter :
    ∀ m : BItem,
      movieEntries m ≠ [] ↔
        ((∃ c, m.category = some c ∧ domestic_categories.contains c = true) ∧
          ∃ ss, m.streams = some ss ∧ ss ≠ []) := by
  intro m
  rw [movieEntries]
  cases hc : m.category with
  | none => simp
  | some c =>
    by_cases hin : domestic_categories.contains c
    · simp only [hin, if_true]
      cases hs : m.streams with
      | none => simp
      | some ss =>
        by_cases hse : ss = []
        · simp [hse]
        · have h2 : ss.isEmpty = false := by simp [List.isEmpty_iff, hse]
          simp only [h2, Bool.false_eq_true, if_false]
          simp only [ne_eq, List.map_eq_nil_iff, hse, not_false_eq_true, true_iff]
          refine ⟨⟨c, rfl, ?_⟩, ⟨ss, rfl, hse⟩⟩
          simpa using hin
    · have hnot : c ∉ domestic_categories := by simpa using hin
      simp [hin, hnot]

/-- Concrete instance of C7: a movie with allow-listed category and one
stream contributes at least one entry. -/
theorem c7_movie_category_filter_witness :
    movieEntries ⟨⟨none, some "F", none, none⟩, some "EX YU FILMOVI", some [⟨"u1"⟩]⟩ ≠ [] :=
  (c7_movie_category_filter _).mpr
    ⟨⟨"EX YU FILMOVI", rfl, by decide⟩, ⟨[⟨"u1"⟩], rfl, by decide⟩⟩

/-- C6: the header builder is a pure deterministic function of the item
and the content-type tag, and every kept static-catalog item with a
non-empty streams collection — a movie passing the category filter, or a
series item, which is kept unconditionally — yields exactly one entry
per stream, all of them carrying the single header built from that item. -/
theorem c6_one_header_per_item :
    (∀ (i1 i2 : Item) (t1 t2 : String), i1 = i2 → t1 = t2 →
      create_extinf i1 t1 = create_extinf i2 t2) ∧
    (∀ (m : BItem) (c : String) (ss : List BStream), m.category = some c →
      domestic_categories.contains c = true → m.streams = some ss → ss ≠ [] →
      (movieEntries m).length = ss.length ∧
        ∀ e ∈ movieEntries m, e.1 = create_extinf m.toItem "movie") ∧
    (∀ (m : BItem) (ss : List BStream), m.streams = some ss → ss ≠ [] →
      (seriesEntries m).length = ss.length ∧
        ∀ e ∈ seriesEntries m, e.1 = create_extinf m.toItem "series") := by
  refine ⟨?_, ?_, ?_⟩
  · intro i1 i2 t1 t2 h1 h2
    rw [h1, h2]
  · intro m c ss hc hin hs hne
    have hse : ss.isEmpty = false := by simp [List.isEmpty_iff, hne]
    simp only [movieEntries, hc, hin, if_true, hs, hse, Bool.false_eq_true, if_false]
    constructor
    · simp
    · intro e he
      obtain ⟨s, _, rfl⟩ := List.mem_map.mp he
      rfl
  · intro m ss hs hne
    have hse : ss.isEmpty = false := by simp [List.isEmpty_iff, hne]
    simp only [seriesEntries, hs, hse, Bool.false_eq_true, if_false]
    constructor
    · simp
    · intro e he
      obtain ⟨s, _, rfl⟩ := List.mem_map.mp he
      rfl

/-- Concrete instances of C6: a kept movie with two stream urls yields
exactly two entries, and so does a series item with two stream urls. -/
theorem c6_one_header_per_item_witness :
    (movieEntries ⟨⟨none, some "F", none, none⟩, some "EX YU FILMOVI",
      some [⟨"u1"⟩, ⟨"u2"⟩]⟩).length = 2 ∧
    (seriesEntries ⟨⟨none, some "S", none, none⟩, none,
      some [⟨"v1"⟩, ⟨"v2"⟩]⟩).length = 2 := by
  constructor
  · have h := c6_one_header_per_item.2.1
      ⟨⟨none, some "F", none, none⟩, some "EX YU FILMOVI", some [⟨"u1"⟩, ⟨"u2"⟩]⟩
      "EX YU FILMOVI" [⟨"u1"⟩, ⟨"u2"⟩] rfl (by decide) rfl (by decide)
    exact h.1.trans (by decide)
  · have h := c6_one_header_per_item.2.2
      ⟨⟨none, some "S", none, none⟩, none, some [⟨"v1"⟩, ⟨"v2"⟩]⟩
      [⟨"v1"⟩, ⟨"v2"⟩] rfl (by decide)
    exact h.1.trans (by decide)

/-- C9: with zero retained entries the reported percentage is zero, and
the division is performed only under the non-emptiness guard, where its
divisor is positive. -/
theorem c9_percentage_guard :
    reportPct [] = 0 ∧
    ∀ u : List Entry, u ≠ [] →
      0 < u.length ∧ reportPct u = withTmdbCount u * 100 / u.length := by
  constructor
  · rfl
  · intro u hu
    have hlen : 0 < u.length := List.length_pos.mpr hu
    have : u.isEmpty = false := by simp [List.isEmpty_iff, hu]
    refine ⟨hlen, ?_⟩
    rw [reportPct, this]
    rfl

/-- Concrete instance of C9 on a singleton list. -/
theorem c9_percentage_guard_witness :
    0 < ([("h", "u")] : List Entry).length ∧
    reportPct [("h", "u")] = withTmdbCount [("h", "u")] * 100 / ([("h", "u")] : List Entry).length :=
  c9_percentage_guard.2 [("h", "u")] (by decide)

/-- Counterexample to C3 as stated: with a malformed first episode stub
(the failure point) and a healthy second episode whose stream fetch would
yield a url, the episode loop emits nothing — the sibling after the
failure is not processed — although the second episode alone would emit
its entry. -/
theorem c3_per_episode_counterexample :
    processVideos (fun vid => if vid == "e2" then some ⟨some [⟨some "u2"⟩]⟩ else none)
      ⟨⟨none, some "S", none, none⟩, some [none, some ⟨some "e2"⟩]⟩
      [none, some ⟨some "e2"⟩] = [] ∧
    processVideos (fun vid => if vid == "e2" then some ⟨some [⟨some "u2"⟩]⟩ else none)
      ⟨⟨none, some "S", none, none⟩, some [none, some ⟨some "e2"⟩]⟩
      [some ⟨some "e2"⟩] =
      [(create_extinf ⟨none, some "S", none, none⟩ "series", "u2")] := by
  constructor
  · rfl
  · decide

/-- C3 (amended): the silent-skip policy of adapter 3 is scoped per series
item, not per episode: a failure at one episode drops all remaining
episodes of the same series (entries of earlier episodes are kept), while
other series items are processed independently. -/
theorem c3_error_scope_per_series :
    (∀ (fs : String → Option StreamsResp) (item : SeriesItem)
      (pre rest : List (Option VideoRef)), none ∉ pre →
      processVideos fs item (pre ++ none :: rest) = processVideos fs item pre) ∧
    (∀ (fm : String → Option SeriesMetaResp) (fs : String → Option StreamsResp)
      (ms1 ms2 : List MetaRef),
      (ms1 ++ ms2).flatMap (processSeriesMeta fm fs) =
        ms1.flatMap (processSeriesMeta fm fs) ++ ms2.flatMap (processSeriesMeta fm fs)) := by
  constructor
  · intro fs item pre rest hpre
    induction pre with
    | nil => rfl
    | cons a pre ih =>
      cases a with
      | none => exact absurd (List.mem_cons_self _ _) hpre
      | some v =>
        simp only [List.cons_append, processVideos]
        congr 1
        exact ih fun h => hpre (List.mem_cons_of_mem _ h)
  · intro fm fs ms1 ms2
    exact List.flatMap_append ms1 ms2 (processSeriesMeta fm fs)

/-- Concrete instance of C3 (amended): a healthy episode before the
failure point keeps its entry, the episodes after it are dropped. -/
theorem c3_error_scope_per_series_witness :
    processVideos (fun vid => if vid == "e1" then some ⟨some [⟨some "u1"⟩]⟩ else none)
      ⟨⟨none, some "S", none, none⟩, some [some ⟨some "e1"⟩, none, some ⟨some "e2"⟩]⟩
      ([some ⟨some "e1"⟩] ++ none :: [some ⟨some "e2"⟩]) =
    processVideos (fun vid => if vid == "e1" then some ⟨some [⟨some "u1"⟩]⟩ else none)
      ⟨⟨none, some "S", none, none⟩, some [some ⟨some "e1"⟩, none, some ⟨some "e2"⟩]⟩
      [some ⟨some "e1"⟩] :=
  c3_error_scope_per_series.1 _ _ [some ⟨some "e1"⟩] [some ⟨some "e2"⟩] (by decide)

/-- A pagination run starting on an empty page stops after that one request. -/
lemma paginate_stop (f : Nat → Option Page) (g : MetaRef → List Entry) (n skip : Nat)
    (h : pageEmptyAt f skip = true) : paginate f g (n + 1) skip = ([], 0, 1) := by
  rw [paginate, if_pos h]

/-- A pagination run starting on a non-empty page processes that page and
continues at the cursor advanced by 100. -/
lemma paginate_step (f : Nat → Option Page) (g : MetaRef → List Entry) (n skip : Nat)
    (h : pageEmptyAt f skip = false) :
    paginate f g (n + 1) skip =
      ((pageMetas f skip).flatMap g ++ (paginate f g n (skip + 100)).1,
        (pageMetas f skip).length + (paginate f g n (skip + 100)).2.1,
        1 + (paginate f g n (skip + 100)).2.2) := by
  rw [paginate, if_neg (by simp [h])]

/-- Characterization of a pagination run whose first empty page is the
one at index `k` (cursor `skip + 100 * k`), for any sufficient fuel: the
items of pages `0..k-1` are processed in order and exactly `k + 1`
catalog requests are issued. -/
lemma paginate_run (f : Nat → Option Page) (g : MetaRef → List Entry) :
    ∀ (k fuel skip : Nat),
      (∀ i, i < k → pageEmptyAt f (skip + 100 * i) = false) →
      pageEmptyAt f (skip + 100 * k) = true →
      k < fuel →
      paginate f g fuel skip =
        (((List.range k).map fun i => (pageMetas f (skip + 100 * i)).flatMap g).flatten,
          ((List.range k).map fun i => (pageMetas f (skip + 100 * i)).length).sum,
          k + 1) := by
  intro k
  induction k with
  | zero =>
    intro fuel skip hlt hstop hfuel
    obtain ⟨n, rfl⟩ : ∃ n, fuel = n + 1 := ⟨fuel - 1, by omega⟩
    simp only [Nat.mul_zero, Nat.add_zero] at hstop
    simp only [List.range_zero, List.map_nil, List.flatten_nil, List.sum_nil]
    exact paginate_stop f g n skip hstop
  | succ k ih =>
    intro fuel skip hlt hstop hfuel
    obtain ⟨n, rfl⟩ : ∃ n, fuel = n + 1 := ⟨fuel - 1, by omega⟩
    have h0 : pageEmptyAt f skip = false := by
      have := hlt 0 (by omega)
      simpa using this
    rw [paginate_step f g n skip h0]
    rw [ih n (skip + 100)
      (fun i hi => by
        have := hlt (i + 1) (by omega)
        have e : skip + 100 * (i + 1) = skip + 100 + 100 * i := by ring
        rw [e] at this
        exact this)
      (by
        have e : skip + 100 * (k + 1) = skip + 100 + 100 * k := by ring
        rw [e] at hstop
        exact hstop)
      (by omega)]
    have hfun1 : ∀ i : Nat,
        ((fun i => (pageMetas f (skip + 100 * i)).flatMap g) ∘ Nat.succ) i
          = (pageMetas f (skip + 100 + 100 * i)).flatMap g := by
      intro i
      simp only [Function.comp_apply]
      have e : skip + 100 * Nat.succ i = skip + 100 + 100 * i := by omega
      rw [e]
    have hfun2 : ∀ i : Nat,
        ((fun i => (pageMetas f (skip + 100 * i)).length) ∘ Nat.succ) i
          = (pageMetas f (skip + 100 + 100 * i)).length := by
      intro i
      simp only [Function.comp_apply]
      have e : skip + 100 * Nat.succ i = skip + 100 + 100 * i := by omega
      rw [e]
    rw [List.range_succ_eq_map, List.map_cons, List.map_cons, List.map_map, List.map_map,
      List.map_congr_left (fun i _ => hfun1 i), List.map_congr_left (fun i _ => hfun2 i),
      List.flatten_cons, List.sum_cons]
    simp only [Nat.mul_zero, Nat.add_zero]
    have e3 : 1 + (k + 1) = k + 1 + 1 := by omega
    rw [e3]



/-- As long as no page within the fuel bound is empty, the loop keeps
issuing requests: it has no other termination condition. -/
lemma paginate_no_stop (f : Nat → Option Page) (g : MetaRef → List Entry) :
    ∀ (fuel skip : Nat),
      (∀ i, i < fuel → pageEmptyAt f (skip + 100 * i) = false) →
      (paginate f g fuel skip).2.2 = fuel := by
  intro fuel
  induction fuel with
  | zero => intro skip _; rfl
  | succ n ih =>
    intro skip h
    have h0 : pageEmptyAt f skip = false := by
      have := h 0 (by omega)
      simpa using this
    rw [paginate_step f g n skip h0]
    have := ih (skip + 100) fun i hi => by
      have := h (i + 1) (by omega)
      have e : skip + 100 * (i + 1) = skip + 100 + 100 * i := by ring
      rw [e] at this
      exact this
    simp only [this]
    omega

/-- C5: each paginated adapter loop starts the cursor at 0 and advances it
by exactly 100 per request; when the first empty page (absent fetch,
absent `metas`, or empty collection) is the one at index `k`, the items
of pages `0..k-1` are processed in order and the loop halts after exactly
`k + 1` requests — and as long as no page is empty, the loop never stops
(emptiness is the sole termination condition). Both adapters instantiate
`paginate` (movie catalog in `allEntries` via `processMovieMeta`, series
catalog via `processSeriesMeta`). -/
theorem c5_pagination_terminates_on_empty_page :
    (∀ (f : Nat → Option Page) (g : MetaRef → List Entry) (k fuel : Nat),
      (∀ i, i < k → pageEmptyAt f (100 * i) = false) →
      pageEmptyAt f (100 * k) = true → k < fuel →
      paginate f g fuel 0 =
        (((List.range k).map fun i => (pageMetas f (100 * i)).flatMap g).flatten,
          ((List.range k).map fun i => (pageMetas f (100 * i)).length).sum,
          k + 1)) ∧
    (∀ (f : Nat → Option Page) (g : MetaRef → List Entry) (fuel skip : Nat),
      (∀ i, i < fuel → pageEmptyAt f (skip + 100 * i) = false) →
      (paginate f g fuel skip).2.2 = fuel) := by
  constructor
  · intro f g k fuel hlt hstop hfuel
    have h := paginate_run f g k fuel 0
      (fun i hi => by simpa using hlt i hi) (by simpa using hstop) hfuel
    simpa using h
  · exact paginate_no_stop

/-- Concrete instance of C5, the spec's own example: a first page with 50
items and an empty second page process exactly 50 items and halt after
the second request. -/
theorem c5_pagination_terminates_on_empty_page_witness :
    paginate
      (fun skip => if skip == 0 then some ⟨some (List.replicate 50 ⟨some "m"⟩)⟩
        else some ⟨some []⟩)
      (fun _ => []) 5 0 = ([], 50, 2) := by
  have h := c5_pagination_terminates_on_empty_page.1
    (fun skip => if skip == 0 then some ⟨some (List.replicate 50 ⟨some "m"⟩)⟩
      else some ⟨some []⟩)
    (fun _ => []) 1 5
    (by
      intro i hi
      have : i = 0 := by omega
      subst this
      decide)
    (by decide) (by omega)
  rw [h]
  decide

/-- Every entry produced by the per-stream loop shared by adapters 2 and 3
carries the header it was built with. -/
lemma filterMapStream_fst (h : String) (ss : List DStream) (e : Entry)
    (he : e ∈ ss.filterMap fun s =>
      match s.url with
      | some u => if u != "" then some (h, u) else none
      | none => none) : e.1 = h := by
  obtain ⟨s, _, hsome⟩ := List.mem_filterMap.mp he
  split at hsome
  · split at hsome
    · cases hsome
      rfl
    · cases hsome
  · cases hsome

/-- Every entry of the static movie loop is headed by a `create_extinf` string. -/
lemma movieEntries_headers (m : BItem) :
    ∀ e ∈ movieEntries m, ∃ (it : Item) (t : String), e.1 = create_extinf it t := by
  intro e he
  rw [movieEntries] at he
  split at he
  · exact absurd he (List.not_mem_nil e)
  · split at he
    · split at he
      · split at he
        · exact absurd he (List.not_mem_nil e)
        · obtain ⟨s, _, rfl⟩ := List.mem_map.mp he
          exact ⟨m.toItem, "movie", rfl⟩
      · exact absurd he (List.not_mem_nil e)
    · exact absurd he (List.not_mem_nil e)

/-- Every entry of the static series loop is headed by a `create_extinf` string. -/
lemma seriesEntries_headers (m : BItem) :
    ∀ e ∈ seriesEntries m, ∃ (it : Item) (t : String), e.1 = create_extinf it t := by
  intro e he
  rw [seriesEntries] at he
  split at he
  · split at he
    · exact absurd he (List.not_mem_nil e)
    · obtain ⟨s, _, rfl⟩ := List.mem_map.mp he
      exact ⟨m.toItem, "series", rfl⟩
  · exact absurd he (List.not_mem_nil e)

/-- Every entry of adapter 1 is headed by a `create_extinf` string. -/
lemma adapter1_headers (d : Option BaubauData) :
    ∀ e ∈ adapter1 d, ∃ (it : Item) (t : String), e.1 = create_extinf it t := by
  intro e he
  rw [adapter1.eq_def] at he
  split at he
  · exact absurd he (List.not_mem_nil e)
  · rcases List.mem_append.mp he with h1 | h2
    · obtain ⟨m, _, hm⟩ := List.mem_flatMap.mp h1
      exact movieEntries_headers m e hm
    · obtain ⟨m, _, hm⟩ := List.mem_flatMap.mp h2
      exact seriesEntries_headers m e hm

/-- Every entry of the per-movie body of adapter 2 is headed by a
`create_extinf` string. -/
lemma processMovieMeta_headers (fm : String → Option MovieMetaResp)
    (fs : String → Option StreamsResp) (m : MetaRef) :
    ∀ e ∈ processMovieMeta fm fs m, ∃ (it : Item) (t : String), e.1 = create_extinf it t := by
  intro e he
  simp only [processMovieMeta] at he
  split at he
  · split at he
    · split at he
      · split at he
        · split at he
          · split at he
            · exact absurd he (List.not_mem_nil e)
            · exact ⟨_, "movie", filterMapStream_fst _ _ e he⟩
          · exact absurd he (List.not_mem_nil e)
        · exact absurd he (List.not_mem_nil e)
      · exact absurd he (List.not_mem_nil e)
    · exact absurd he (List.not_mem_nil e)
  · exact absurd he (List.not_mem_nil e)

/-- Every entry of the episode loop is headed by a `create_extinf` string. -/
lemma processVideos_headers (fs : String → Option StreamsResp) (item : SeriesItem) :
    ∀ vids, ∀ e ∈ processVideos fs item vids,
      ∃ (it : Item) (t : String), e.1 = create_extinf it t := by
  intro vids
  induction vids with
  | nil => intro e he; exact absurd he (List.not_mem_nil e)
  | cons a rest ih =>
    intro e he
    cases a with
    | none => exact absurd he (List.not_mem_nil e)
    | some v =>
      rw [processVideos] at he
      rcases List.mem_append.mp he with h1 | h2
      · dsimp only at h1
        split at h1
        · split at h1
          · split at h1
            · split at h1
              · exact absurd h1 (List.not_mem_nil e)
              · exact ⟨_, "series", filterMapStream_fst _ _ e h1⟩
            · exact absurd h1 (List.not_mem_nil e)
          · exact absurd h1 (List.not_mem_nil e)
        · exact absurd h1 (List.not_mem_nil e)
      · exact ih e h2

/-- Every entry of the per-series body of adapter 3 is headed by a
`create_extinf` string. -/
lemma processSeriesMeta_headers (fm : String → Option SeriesMetaResp)
    (fs : String → Option StreamsResp) (m : MetaRef) :
    ∀ e ∈ processSeriesMeta fm fs m, ∃ (it : Item) (t : String), e.1 = create_extinf it t := by
  intro e he
  simp only [processSeriesMeta] at he
  split at he
  · split at he
    · split at he
      · split at he
        · split at he
          · exact absurd he (List.not_mem_nil e)
          · exact processVideos_headers fs _ _ e he
        · exact absurd he (List.not_mem_nil e)
      · exact absurd he (List.not_mem_nil e)
    · exact absurd he (List.not_mem_nil e)
  · exact absurd he (List.not_mem_nil e)

/-- Entries of a pagination run all come from the per-item body. -/
lemma paginate_headers (f : Nat → Option Page) (g : MetaRef → List Entry)
    (hp : ∀ m, ∀ e ∈ g m, ∃ (it : Item) (t : String), (e : Entry).1 = create_extinf it t) :
    ∀ fuel skip, ∀ e ∈ (paginate f g fuel skip).1,
      ∃ (it : Item) (t : String), e.1 = create_extinf it t := by
  intro fuel
  induction fuel with
  | zero => intro skip e he; exact absurd he (List.not_mem_nil e)
  | succ n ih =>
    intro skip e he
    rw [paginate] at he
    split at he
    · exact absurd he (List.not_mem_nil e)
    · dsimp only at he
      rcases List.mem_append.mp he with h1 | h2
      · obtain ⟨m, _, hm⟩ := List.mem_flatMap.mp h1
        exact hp m e hm
      · exact ih (skip + 100) e h2

/-- Every accumulated entry's header is a `create_extinf` output. -/
lemma allEntries_headers (env : Env) (fuel : Nat) :
    ∀ e ∈ allEntries env fuel, ∃ (it : Item) (t : String), e.1 = create_extinf it t := by
  intro e he
  rw [allEntries] at he
  rcases List.mem_append.mp he with h12 | h3
  · rcases List.mem_append.mp h12 with h1 | h2
    · exact adapter1_headers env.baubau e h1
    · exact paginate_headers env.movieCatalog _
        (fun m => processMovieMeta_headers env.movieMeta env.movieStreams m) fuel 0 e h2
  · exact paginate_headers env.seriesCatalog _
      (fun m => processSeriesMeta_headers env.seriesMeta env.episodeStreams m) fuel 0 e h3

/-- Appending anything to a list keeps it a character-level prefix. -/
lemma listStartsWith_append (l m : List Char) : listStartsWith (l ++ m) l = true := by
  induction l with
  | nil => cases m <;> rfl
  | cons a as ih => simp [listStartsWith, ih]

/-- A string starts with its own left factor. -/
lemma startsWithStr_append (a r : String) : startsWithStr (a ++ r) a = true := by
  rw [startsWithStr, String.data_append]
  exact listStartsWith_append a.data r.data

/-- Every header built by `create_extinf` starts with the fixed prefix token. -/
lemma create_extinf_startsWith (item : Item) (t : String) :
    startsWithStr (create_extinf item t) "#EXTINF:-1" = true := by
  rw [create_extinf]
  obtain ⟨rest, hrest⟩ : ∃ rest, extinfParts item t = "#EXTINF:-1" :: rest :=
    ⟨_, rfl⟩
  rw [hrest]
  cases rest with
  | nil =>
    rw [show joinSpace ["#EXTINF:-1"] = "#EXTINF:-1" from rfl]
    simp only [String.append_assoc]
    exact startsWithStr_append _ _
  | cons q rest2 =>
    rw [show joinSpace ("#EXTINF:-1" :: q :: rest2) =
        "#EXTINF:-1" ++ " " ++ joinSpace (q :: rest2) from rfl]
    simp only [String.append_assoc]
    exact startsWithStr_append _ _

/-- Positions of the flattened (header, url) pairs: the header of entry
`i` sits at line `2 i` and its url immediately after it at line `2 i + 1`. -/
lemma flatPairs_get (l : List Entry) :
    ∀ i : Nat,
      (l.flatMap fun e => [e.1, e.2])[2 * i]? = l[i]?.map Prod.fst ∧
      (l.flatMap fun e => [e.1, e.2])[2 * i + 1]? = l[i]?.map Prod.snd := by
  induction l with
  | nil => intro i; simp
  | cons a rest ih =>
    intro i
    cases i with
    | zero => simp [List.flatMap_cons]
    | succ i =>
      obtain ⟨ih1, ih2⟩ := ih i
      constructor
      · rw [List.flatMap_cons, show 2 * (i + 1) = 2 * i + 1 + 1 from by ring]
        simp only [List.cons_append, List.nil_append, List.getElem?_cons_succ]
        exact ih1
      · rw [List.flatMap_cons, show 2 * (i + 1) + 1 = 2 * i + 1 + 1 + 1 from by ring]
        simp only [List.cons_append, List.nil_append, List.getElem?_cons_succ]
        exact ih2

/-- C8: the written file is the fixed `#EXTM3U` marker line followed, for
each retained entry in deduplicated order, by its header line and then
its url line: line 0 is the marker, the header of entry `i` is line
`2 i + 1` and its url is line `2 i + 2`; the retained urls are pairwise
distinct (each appears exactly once as a url line), and every header line
begins with the fixed `#EXTINF:-1` prefix token. -/
theorem c8_output_file_format :
    ∀ (env : Env) (fuel : Nat),
      (outputLines (uniqueEntries env fuel))[0]? = some "#EXTM3U" ∧
      ((uniqueEntries env fuel).map Prod.snd).Nodup ∧
      (∀ i : Nat,
        (outputLines (uniqueEntries env fuel))[2 * i + 1]? =
          ((uniqueEntries env fuel)[i]?).map Prod.fst ∧
        (outputLines (uniqueEntries env fuel))[2 * i + 2]? =
          ((uniqueEntries env fuel)[i]?).map Prod.snd) ∧
      (∀ e ∈ uniqueEntries env fuel, startsWithStr e.1 "#EXTINF:-1" = true) := by
  intro env fuel
  refine ⟨by simp [outputLines], (dedupeLoop_urls [] (allEntries env fuel)).1, ?_, ?_⟩
  · intro i
    obtain ⟨h1, h2⟩ := flatPairs_get (uniqueEntries env fuel) i
    constructor
    · rw [outputLines, List.getElem?_cons_succ]
      exact h1
    · rw [outputLines, show 2 * i + 2 = 2 * i + 1 + 1 from by ring, List.getElem?_cons_succ]
      exact h2
  · intro e he
    have hmem : e ∈ allEntries env fuel :=
      (dedupeLoop_sublist [] (allEntries env fuel)).subset he
    obtain ⟨it, t, het⟩ := allEntries_headers env fuel e hmem
    rw [het]
    exact create_extinf_startsWith it t

/-- Concrete instance of C8, on an environment holding one static movie
with one stream: the retained header is line 1, its url is line 2. -/
theorem c8_output_file_format_witness :
    (outputLines (uniqueEntries
      ⟨some ⟨[⟨⟨none, some "F", none, none⟩, some "EX YU FILMOVI", some [⟨"u1"⟩]⟩], []⟩,
        fun _ => none, fun _ => none, fun _ => none,
        fun _ => none, fun _ => none, fun _ => none⟩ 1))[2 * 0 + 2]? =
    ((uniqueEntries
      ⟨some ⟨[⟨⟨none, some "F", none, none⟩, some "EX YU FILMOVI", some [⟨"u1"⟩]⟩], []⟩,
        fun _ => none, fun _ => none, fun _ => none,
        fun _ => none, fun _ => none, fun _ => none⟩ 1)[0]?).map Prod.snd :=
  ((c8_output_file_format
    ⟨some ⟨[⟨⟨none, some "F", none, none⟩, some "EX YU FILMOVI", some [⟨"u1"⟩]⟩], []⟩,
      fun _ => none, fun _ => none, fun _ => none,
      fun _ => none, fun _ => none, fun _ => none⟩ 1).2.2.1 0).2
